import Mathlib

/-!
Verification of the inference-table core of `src/solve/infer/mod.rs`:
union-find-backed type/lifetime inference variables, probing, shallow
normalization, and the snapshot / commit / rollback transaction protocol.

The `ir` and `var` modules and the `ena` union-find crate are not part of
the analyzed source; their definitions below are modelled from the spec
(and from `ena`'s documented observational contract) and are marked as such.
-/

namespace Chalk

/-- Modelled from the spec: `UniverseIndex` is an ordered scope tag
(the `ir` crate is not in the analyzed source). -/
abbrev UniverseIndex := Nat

/-- From the spec's data model: `InferenceValue<T>` is tagged as
`Unbound(UniverseIndex)` or `Bound(T)` (declared in the missing `var` module). -/
inductive InferenceValue (T : Type) : Type where
  | Unbound : UniverseIndex → InferenceValue T
  | Bound : T → InferenceValue T
deriving DecidableEq

/-- Modelled from the spec: the `ir` crate's type term. The source only
inspects the variable case (`Ty::Var(depth)`, a de-Bruijn index); the
non-variable structure (constructor application, quantified types) is out of
the spec's scope and is represented by the minimal shape the spec describes. -/
inductive Ty : Type where
  | Var : Nat → Ty
  | Apply : Nat → List Ty → Ty
  | ForAll : Nat → Ty → Ty

/-- Modelled from the source's exhaustive match in `normalize_lifetime`:
a `Lifetime` is either a variable reference or a `ForAll` placeholder. -/
inductive Lifetime : Type where
  | Var : Nat → Lifetime
  | ForAll : UniverseIndex → Lifetime
deriving DecidableEq

/-- Modelled from the spec: `TyInferenceVariable` (missing `var` module) is an
opaque integer key into the type union-find store. -/
structure TyInferenceVariable : Type where
  index : Nat
deriving DecidableEq

/-- Modelled from the spec: the depth-to-key conversion is a pure
reinterpretation with no renumbering. -/
def TyInferenceVariable.from_depth (depth : Nat) : TyInferenceVariable :=
  ⟨depth⟩

/-- Modelled from the spec: the key-to-depth conversion (named `to_usize`
in the missing `var` module). -/
def TyInferenceVariable.to_usize (v : TyInferenceVariable) : Nat :=
  v.index

/-- Modelled from the spec: `LifetimeInferenceVariable` (missing `var`
module) is an opaque integer key into the lifetime union-find store. -/
structure LifetimeInferenceVariable : Type where
  index : Nat
deriving DecidableEq

/-- Modelled from the spec: pure reinterpretation of a depth as a key. -/
def LifetimeInferenceVariable.from_depth (depth : Nat) : LifetimeInferenceVariable :=
  ⟨depth⟩

/-- Modelled from the spec: the key-to-depth conversion. -/
def LifetimeInferenceVariable.to_usize (v : LifetimeInferenceVariable) : Nat :=
  v.index

/-- Modelled from the spec: up-shift of de-Bruijn indices by `amt`, with a
cutoff below which indices refer to binders inside the term and are left
alone (the `ir` crate's shift operation). -/
def Ty.up_shift_from (amt : Nat) : Nat → Ty → Ty
  | cutoff, Ty.Var d => if d < cutoff then Ty.Var d else Ty.Var (d + amt)
  | cutoff, Ty.Apply n args =>
      Ty.Apply n (args.attach.map fun a => Ty.up_shift_from amt cutoff a.1)
  | cutoff, Ty.ForAll k body => Ty.ForAll k (Ty.up_shift_from amt (cutoff + k) body)
termination_by _ ty => sizeOf ty
decreasing_by
  · have := List.sizeOf_lt_of_mem a.2
    simp only [Ty.Apply.sizeOf_spec]
    omega
  · simp only [Ty.ForAll.sizeOf_spec]
    omega

/-- Modelled from the spec: `val.up_shift(binders)` shifts every free
de-Bruijn index of `val` up by `binders`. -/
def Ty.up_shift (ty : Ty) (amt : Nat) : Ty :=
  Ty.up_shift_from amt 0 ty

/-- Source `Ty::var`: if this is a `Ty::Var(d)`, returns `Some(d)` else `None`. -/
def Ty.var : Ty → Option Nat
  | Ty.Var depth => some depth
  | Ty.Apply _ _ => none
  | Ty.ForAll _ _ => none

/-- Source `Ty::inference_var`: if this is a `Ty::Var`, the
`TyInferenceVariable` it represents (valid only outside any binder). -/
def Ty.inference_var (t : Ty) : Option TyInferenceVariable :=
  t.var.map TyInferenceVariable.from_depth

/-- Source `Lifetime::var`: if this is a `Lifetime::Var(d)`, returns
`Some(d)` else `None`. -/
def Lifetime.var : Lifetime → Option Nat
  | Lifetime.Var depth => some depth
  | Lifetime.ForAll _ => none

/-- Source `Lifetime::inference_var`: if this is a `Lifetime::Var`, the
`LifetimeInferenceVariable` it represents. -/
def Lifetime.inference_var (l : Lifetime) : Option LifetimeInferenceVariable :=
  l.var.map LifetimeInferenceVariable.from_depth

/-- Modelled from `ena`'s documented contract (external crate): a
union-find store observed through `probe_value`, represented by the list of
per-key values, indexed by the key's integer index in creation order. -/
structure ena.UnificationTable (T : Type) : Type where
  values : List (InferenceValue T)
deriving DecidableEq

/-- Modelled from `ena`'s documented contract: a snapshot captures the
observable per-key values at snapshot time. -/
structure ena.Snapshot (T : Type) : Type where
  values : List (InferenceValue T)
deriving DecidableEq

/-- Modelled from `ena`: the empty table. -/
def ena.UnificationTable.new (T : Type) : ena.UnificationTable T :=
  ⟨[]⟩

/-- Modelled from `ena`: `new_key` allocates the next integer key with the
given initial value. -/
def ena.UnificationTable.new_key {T : Type} (t : ena.UnificationTable T)
    (v : InferenceValue T) : Nat × ena.UnificationTable T :=
  (t.values.length, ⟨t.values ++ [v]⟩)

/-- Modelled from `ena`: `probe_value` reads the current value of a key.
A key outside the store (a caller contract violation in `ena`) reads as
unbound. -/
def ena.UnificationTable.probe_value {T : Type} (t : ena.UnificationTable T)
    (k : Nat) : InferenceValue T :=
  t.values.getD k (InferenceValue.Unbound 0)

/-- Modelled from `ena`: overwrite the value of key `k` (the effect, at the
observable level, of the missing `unify` module binding a variable or
merging two classes). -/
def ena.UnificationTable.set_value {T : Type} (t : ena.UnificationTable T)
    (k : Nat) (v : InferenceValue T) : ena.UnificationTable T :=
  ⟨t.values.set k v⟩

/-- Modelled from `ena`: taking a snapshot leaves the table observably
unchanged and captures its current values. -/
def ena.UnificationTable.snapshot {T : Type} (t : ena.UnificationTable T) :
    ena.Snapshot T :=
  ⟨t.values⟩

/-- Modelled from `ena`: rollback restores the values captured by the
snapshot, removing keys created since. -/
def ena.UnificationTable.rollback_to {T : Type} (_t : ena.UnificationTable T)
    (s : ena.Snapshot T) : ena.UnificationTable T :=
  ⟨s.values⟩

/-- Modelled from `ena`: commit discards the snapshot and keeps the current
values unchanged. -/
def ena.UnificationTable.commit {T : Type} (t : ena.UnificationTable T)
    (_s : ena.Snapshot T) : ena.UnificationTable T :=
  t

/-- Source struct `InferenceTable`: two union-find stores plus the two
creation-order variable lists. -/
structure InferenceTable : Type where
  ty_unify : ena.UnificationTable Ty
  ty_vars : List TyInferenceVariable
  lifetime_unify : ena.UnificationTable Lifetime
  lifetime_vars : List LifetimeInferenceVariable

/-- Source struct `InferenceSnapshot`: the two union-find snapshots plus
copies of the two variable lists. -/
structure InferenceSnapshot : Type where
  ty_unify_snapshot : ena.Snapshot Ty
  ty_vars : List TyInferenceVariable
  lifetime_unify_snapshot : ena.Snapshot Lifetime
  lifetime_vars : List LifetimeInferenceVariable

/-- Source `ParameterKind` usage: a kind-tagged sum of a type-flavoured and
a lifetime-flavoured payload. -/
inductive ParameterKind (T L : Type) : Type where
  | Ty : T → ParameterKind T L
  | Lifetime : L → ParameterKind T L
deriving DecidableEq

/-- Source alias `ParameterInferenceVariable`. -/
abbrev ParameterInferenceVariable :=
  ParameterKind TyInferenceVariable LifetimeInferenceVariable

/-- Source `InferenceTable::new`. -/
def InferenceTable.new : InferenceTable where
  ty_unify := ena.UnificationTable.new Ty
  ty_vars := []
  lifetime_unify := ena.UnificationTable.new Lifetime
  lifetime_vars := []

/-- Source `InferenceTable::new_variable`: allocate a fresh type key in
state `Unbound(ui)` and push it on `ty_vars`. -/
def InferenceTable.new_variable (t : InferenceTable) (ui : UniverseIndex) :
    TyInferenceVariable × InferenceTable :=
  let r := t.ty_unify.new_key (InferenceValue.Unbound ui)
  let var : TyInferenceVariable := ⟨r.1⟩
  (var, { t with ty_unify := r.2, ty_vars := t.ty_vars ++ [var] })

/-- Source `InferenceTable::new_lifetime_variable`. -/
def InferenceTable.new_lifetime_variable (t : InferenceTable) (ui : UniverseIndex) :
    LifetimeInferenceVariable × InferenceTable :=
  let r := t.lifetime_unify.new_key (InferenceValue.Unbound ui)
  let var : LifetimeInferenceVariable := ⟨r.1⟩
  (var, { t with lifetime_unify := r.2, lifetime_vars := t.lifetime_vars ++ [var] })

/-- Source `InferenceTable::new_parameter_variable`: dispatch on the kind. -/
def InferenceTable.new_parameter_variable (t : InferenceTable)
    (ui : ParameterKind UniverseIndex UniverseIndex) :
    ParameterInferenceVariable × InferenceTable :=
  match ui with
  | ParameterKind.Ty u =>
      let r := t.new_variable u
      (ParameterKind.Ty r.1, r.2)
  | ParameterKind.Lifetime u =>
      let r := t.new_lifetime_variable u
      (ParameterKind.Lifetime r.1, r.2)

/-- Source `InferenceTable::snapshot`: capture both union-find snapshots
and clones of both variable lists. -/
def InferenceTable.snapshot (t : InferenceTable) : InferenceSnapshot where
  ty_unify_snapshot := t.ty_unify.snapshot
  ty_vars := t.ty_vars
  lifetime_unify_snapshot := t.lifetime_unify.snapshot
  lifetime_vars := t.lifetime_vars

/-- Source `InferenceTable::rollback_to`: restore both stores and both
variable lists from the snapshot. -/
def InferenceTable.rollback_to (t : InferenceTable) (s : InferenceSnapshot) :
    InferenceTable where
  ty_unify := t.ty_unify.rollback_to s.ty_unify_snapshot
  ty_vars := s.ty_vars
  lifetime_unify := t.lifetime_unify.rollback_to s.lifetime_unify_snapshot
  lifetime_vars := s.lifetime_vars

/-- Source `InferenceTable::commit`: commit both union-find snapshots,
leaving current values in place. -/
def InferenceTable.commit (t : InferenceTable) (s : InferenceSnapshot) :
    InferenceTable where
  ty_unify := t.ty_unify.commit s.ty_unify_snapshot
  ty_vars := t.ty_vars
  lifetime_unify := t.lifetime_unify.commit s.lifetime_unify_snapshot
  lifetime_vars := t.lifetime_vars

/-- Source `InferenceTable::commit_if_ok`: run `op` under a fresh snapshot,
commit on `Ok`, roll back on `Err`, propagating the result either way. -/
def InferenceTable.commit_if_ok {E R : Type} (t : InferenceTable)
    (op : InferenceTable → Except E R × InferenceTable) :
    Except E R × InferenceTable :=
  let snapshot := t.snapshot
  match op t with
  | (Except.ok v, t1) => (Except.ok v, t1.commit snapshot)
  | (Except.error err, t1) => (Except.error err, t1.rollback_to snapshot)

/-- Source `InferenceTable::probe_var` (`&mut self` in Rust, observably
read-only): `None` if the key is unbound, its bound value otherwise. -/
def InferenceTable.probe_var (t : InferenceTable) (var : TyInferenceVariable) :
    Option Ty × InferenceTable :=
  (match t.ty_unify.probe_value var.index with
   | InferenceValue.Unbound _ => none
   | InferenceValue.Bound val => some val, t)

/-- Source `InferenceTable::probe_lifetime_var`. -/
def InferenceTable.probe_lifetime_var (t : InferenceTable)
    (var : LifetimeInferenceVariable) : Option Lifetime × InferenceTable :=
  (match t.lifetime_unify.probe_value var.index with
   | InferenceValue.Unbound _ => none
   | InferenceValue.Bound val => some val, t)

/-- Source `InferenceTable::normalize_shallow`: a variable at depth `d`
under `binders` binders is a bound variable when `d < binders`; otherwise it
is inference variable `d - binders`, whose bound value (if any) is returned
up-shifted by `binders`. -/
def InferenceTable.normalize_shallow (t : InferenceTable) (leaf : Ty)
    (binders : Nat) : Option Ty × InferenceTable :=
  (leaf.var.bind fun depth =>
    if depth < binders then
      none
    else
      let var := TyInferenceVariable.from_depth (depth - binders)
      match t.ty_unify.probe_value var.index with
      | InferenceValue.Unbound _ => none
      | InferenceValue.Bound val => some (val.up_shift binders), t)

/-- Source `InferenceTable::normalize_lifetime`: `Var(v)` is probed
directly as inference variable `v`; `ForAll` yields nothing. -/
def InferenceTable.normalize_lifetime (t : InferenceTable) (leaf : Lifetime) :
    Option Lifetime × InferenceTable :=
  match leaf with
  | Lifetime.Var v => t.probe_lifetime_var (LifetimeInferenceVariable.from_depth v)
  | Lifetime.ForAll _ => (none, t)

/-- Modelled from the spec: `Substitution` (`ir` crate) maps bound-variable
positions to replacement terms, split into a type-keyed and a
lifetime-keyed mapping; only the values are consulted here. -/
structure Substitution : Type where
  tys : List (TyInferenceVariable × Ty)
  lifetimes : List (LifetimeInferenceVariable × Lifetime)

/-- The first loop of `Substitution::is_trivial_within`: scan the type
values, returning `false` at the first entry that is an inference variable
bound in the table. -/
def check_tys_trivial : InferenceTable → List Ty → Bool × InferenceTable
  | t, [] => (true, t)
  | t, ty :: rest =>
    match ty.inference_var with
    | some var =>
        let r := t.probe_var var
        if r.1.isSome then (false, r.2) else check_tys_trivial r.2 rest
    | none => check_tys_trivial t rest

/-- The second loop of `Substitution::is_trivial_within`, over the lifetime
values. -/
def check_lifetimes_trivial : InferenceTable → List Lifetime → Bool × InferenceTable
  | t, [] => (true, t)
  | t, lt :: rest =>
    match lt.inference_var with
    | some var =>
        let r := t.probe_lifetime_var var
        if r.1.isSome then (false, r.2) else check_lifetimes_trivial r.2 rest
    | none => check_lifetimes_trivial t rest

/-- Source `Substitution::is_trivial_within`: `false` as soon as some type
or lifetime entry is an inference variable bound in `in_infer`, `true`
otherwise. -/
def Substitution.is_trivial_within (s : Substitution) (in_infer : InferenceTable) :
    Bool × InferenceTable :=
  match check_tys_trivial in_infer (s.tys.map Prod.snd) with
  | (false, t1) => (false, t1)
  | (true, t1) => check_lifetimes_trivial t1 (s.lifetimes.map Prod.snd)

/-- Modelled from the spec: the missing `unify` module mutates the type
store only by updating values of existing keys (binding an unbound
variable to a term, or updating a class value when unioning two classes);
at the observable level each such step is a value overwrite at one key. -/
def InferenceTable.set_ty_value (t : InferenceTable) (k : Nat)
    (v : InferenceValue Ty) : InferenceTable :=
  { t with ty_unify := t.ty_unify.set_value k v }

/-- Modelled from the spec: the lifetime counterpart of value overwrite. -/
def InferenceTable.set_lifetime_value (t : InferenceTable) (k : Nat)
    (v : InferenceValue Lifetime) : InferenceTable :=
  { t with lifetime_unify := t.lifetime_unify.set_value k v }

/-- The table mutations named by the spec's transaction properties:
creating a type or lifetime variable, and binding a variable of either
kind (the unify module's observable effect). -/
inductive TableOp : Type where
  | new_ty : UniverseIndex → TableOp
  | new_lifetime : UniverseIndex → TableOp
  | bind_ty : TyInferenceVariable → Ty → TableOp
  | bind_lifetime : LifetimeInferenceVariable → Lifetime → TableOp

/-- Apply one mutation to the table. -/
def applyOp (t : InferenceTable) : TableOp → InferenceTable
  | TableOp.new_ty u => (t.new_variable u).2
  | TableOp.new_lifetime u => (t.new_lifetime_variable u).2
  | TableOp.bind_ty v ty => t.set_ty_value v.index (InferenceValue.Bound ty)
  | TableOp.bind_lifetime v lt => t.set_lifetime_value v.index (InferenceValue.Bound lt)

/-- Apply a sequence of mutations from left to right. -/
def applyOps (t : InferenceTable) : List TableOp → InferenceTable
  | [] => t
  | o :: rest => applyOps (applyOp t o) rest

/-- Observational equivalence of two tables: identical creation lists, and
identical results for every `probe_var` / `probe_lifetime_var` call. -/
def ObsEq (t1 t2 : InferenceTable) : Prop :=
  t1.ty_vars = t2.ty_vars ∧
  t1.lifetime_vars = t2.lifetime_vars ∧
  (∀ v, (t1.probe_var v).1 = (t2.probe_var v).1) ∧
  (∀ v, (t1.probe_lifetime_var v).1 = (t2.probe_lifetime_var v).1)

/-- The creation-list invariant: each list holds precisely the keys of its
union-find store, exactly once, in creation (ascending index) order. -/
def InferenceTable.wf (t : InferenceTable) : Prop :=
  t.ty_vars = (List.range t.ty_unify.values.length).map TyInferenceVariable.mk ∧
  t.lifetime_vars =
    (List.range t.lifetime_unify.values.length).map LifetimeInferenceVariable.mk

/-- The tables reachable from `InferenceTable::new` by the operations the
source exposes: variable creation, the unify module's value updates
(binding and class merging), rollback to a snapshot of a reachable table,
commit, and `commit_if_ok` of a sequence of mutations. -/
inductive Reachable : InferenceTable → Prop where
  | new_table : Reachable InferenceTable.new
  | step (t : InferenceTable) (o : TableOp) :
      Reachable t → Reachable (applyOp t o)
  | set_ty (t : InferenceTable) (k : Nat) (v : InferenceValue Ty) :
      Reachable t → Reachable (t.set_ty_value k v)
  | set_lifetime (t : InferenceTable) (k : Nat) (v : InferenceValue Lifetime) :
      Reachable t → Reachable (t.set_lifetime_value k v)
  | rollback (t1 t2 : InferenceTable) :
      Reachable t1 → Reachable t2 → Reachable (t2.rollback_to t1.snapshot)
  | commit_step (t : InferenceTable) (s : InferenceSnapshot) :
      Reachable t → Reachable (t.commit s)
  | commit_if_ok_step {E R : Type} (t : InferenceTable) (ops : List TableOp)
      (res : Except E R) :
      Reachable t →
      Reachable (t.commit_if_ok fun s => (res, applyOps s ops)).2

/-- A concrete table used to evaluate the claims: one type variable bound
to `Apply 7 []` and one unbound, one lifetime variable bound to `ForAll 5`
and one unbound. -/
def exampleTable : InferenceTable :=
  let t1 := (InferenceTable.new.new_variable 0).2
  let t2 := (t1.new_variable 1).2
  let t3 := (t2.new_lifetime_variable 0).2
  let t4 := (t3.new_lifetime_variable 1).2
  let t5 := t4.set_ty_value 0 (InferenceValue.Bound (Ty.Apply 7 []))
  t5.set_lifetime_value 0 (InferenceValue.Bound (Lifetime.ForAll 5))

/-- A concrete substitution whose entries are a non-variable type, an
unbound type variable, and an unbound lifetime variable. -/
def exampleTrivialSubst : Substitution where
  tys := [(⟨0⟩, Ty.Apply 3 []), (⟨1⟩, Ty.Var 1)]
  lifetimes := [(⟨0⟩, Lifetime.Var 1)]

/-- A concrete substitution containing a type variable that is bound in
`exampleTable`. -/
def exampleBoundSubst : Substitution where
  tys := [(⟨0⟩, Ty.Var 0)]
  lifetimes := []

/-- First step of the freshness counterexample: a table holding one type
variable. -/
def cexTable1 : InferenceTable :=
  (InferenceTable.new.new_variable 0).2

/-- Second step: the key returned for the second type variable, created
after a snapshot of `cexTable1`. -/
def cexPair2 : TyInferenceVariable × InferenceTable :=
  cexTable1.new_variable 0

/-- Third step: the table rolled back to the snapshot, discarding the
second variable. -/
def cexTable3 : InferenceTable :=
  cexPair2.2.rollback_to cexTable1.snapshot

/-- Fourth step: the key returned by the next creation after the rollback. -/
def cexPair4 : TyInferenceVariable × InferenceTable :=
  cexTable3.new_variable 0

/-- Rolling back any table to a snapshot of `t1` yields `t1` itself: the
snapshot captured exactly the four observable fields and rollback restores
all of them. -/
theorem rollback_to_snapshot_eq (t1 t2 : InferenceTable) :
    t2.rollback_to t1.snapshot = t1 :=
  rfl

/-- Committing a snapshot leaves the table unchanged. -/
theorem commit_eq (t : InferenceTable) (s : InferenceSnapshot) :
    t.commit s = t :=
  rfl

/-- Observational equivalence is reflexive. -/
theorem obsEq_refl (t : InferenceTable) : ObsEq t t :=
  ⟨rfl, rfl, fun _ => rfl, fun _ => rfl⟩

/-- Equal tables are observationally equivalent. -/
theorem obsEq_of_eq {t1 t2 : InferenceTable} (h : t1 = t2) : ObsEq t1 t2 :=
  h ▸ obsEq_refl t1

/-- C5: `commit(s)` changes no observable state — the creation lists and
all probe results are exactly those before the call (and, since `snapshot`
itself is observably pure, those of a run that never snapshotted); only the
ability to roll back to `s` is discarded. -/
theorem commit_transparent (t : InferenceTable) (s : InferenceSnapshot) :
    ObsEq (t.commit s) t ∧ t.commit s = t :=
  ⟨obsEq_of_eq (commit_eq t s), commit_eq t s⟩

/-- C2: for every snapshot of `t` and every subsequent sequence of variable
creations and bindings, `rollback_to` restores the table exactly: the
creation lists and every probe result return to their pre-snapshot values. -/
theorem rollback_exact (t : InferenceTable) (ops : List TableOp) :
    (applyOps t ops).rollback_to t.snapshot = t ∧
    ObsEq ((applyOps t ops).rollback_to t.snapshot) t :=
  ⟨rollback_to_snapshot_eq t (applyOps t ops),
   obsEq_of_eq (rollback_to_snapshot_eq t (applyOps t ops))⟩

/-- C1: `commit_if_ok` is atomic. When the wrapped operation performs a
sequence of variable creations and bindings and then fails, the same error
is returned and the table is observationally (and exactly) the table from
before the call; when it succeeds, the value is returned and every change
is kept. -/
theorem commit_if_ok_atomic {E R : Type} (t : InferenceTable) (ops : List TableOp) :
    (∀ e : E,
      (t.commit_if_ok fun s => ((Except.error e : Except E R), applyOps s ops)) =
        (Except.error e, t) ∧
      ObsEq (t.commit_if_ok fun s =>
        ((Except.error e : Except E R), applyOps s ops)).2 t) ∧
    (∀ v : R,
      (t.commit_if_ok fun s => ((Except.ok v : Except E R), applyOps s ops)) =
        (Except.ok v, applyOps t ops)) :=
  ⟨fun _ => ⟨rfl, obsEq_refl t⟩, fun _ => rfl⟩

/-- C8: depth-to-key conversion is a pure reinterpretation: `from_depth`
and depth extraction (`to_usize`) are mutually inverse for both variable
kinds, and `inference_var` on `Var(d)` returns `from_depth(d)`. -/
theorem from_depth_inverse :
    (∀ d, (TyInferenceVariable.from_depth d).to_usize = d) ∧
    (∀ v : TyInferenceVariable, TyInferenceVariable.from_depth v.to_usize = v) ∧
    (∀ d, (LifetimeInferenceVariable.from_depth d).to_usize = d) ∧
    (∀ v : LifetimeInferenceVariable, LifetimeInferenceVariable.from_depth v.to_usize = v) ∧
    (∀ d, (Ty.Var d).inference_var = some (TyInferenceVariable.from_depth d)) ∧
    (∀ d, (Lifetime.Var d).inference_var = some (LifetimeInferenceVariable.from_depth d)) :=
  ⟨fun _ => rfl, fun _ => rfl, fun _ => rfl, fun _ => rfl, fun _ => rfl, fun _ => rfl⟩

/-- C9: lifetime shallow normalization takes no binder count: `Var(d)` is
probed directly as inference variable `d` (no threshold, and a bound value
is returned with no up-shift), and `ForAll` and unbound variables yield
nothing. -/
theorem normalize_lifetime_spec (t : InferenceTable) :
    (∀ d, (t.normalize_lifetime (Lifetime.Var d)).1 =
        (t.probe_lifetime_var (LifetimeInferenceVariable.from_depth d)).1) ∧
    (∀ u, (t.normalize_lifetime (Lifetime.ForAll u)).1 = none) ∧
    (∀ d u, t.lifetime_unify.probe_value d = InferenceValue.Unbound u →
        (t.normalize_lifetime (Lifetime.Var d)).1 = none) ∧
    (∀ d lt, t.lifetime_unify.probe_value d = InferenceValue.Bound lt →
        (t.normalize_lifetime (Lifetime.Var d)).1 = some lt) := by
  refine ⟨fun _ => rfl, fun _ => rfl, fun d u h => ?_, fun d lt h => ?_⟩
  · simp only [InferenceTable.normalize_lifetime, InferenceTable.probe_lifetime_var,
      LifetimeInferenceVariable.from_depth, h]
  · simp only [InferenceTable.normalize_lifetime, InferenceTable.probe_lifetime_var,
      LifetimeInferenceVariable.from_depth, h]

/-- Witness for C9: in the example table, lifetime variable 0 is bound to
`ForAll 5` and `normalize_lifetime` on `Var 0` returns it unshifted. -/
theorem normalize_lifetime_spec_witness :
    exampleTable.lifetime_unify.probe_value 0 = InferenceValue.Bound (Lifetime.ForAll 5) ∧
    (exampleTable.normalize_lifetime (Lifetime.Var 0)).1 = some (Lifetime.ForAll 5) :=
  ⟨by decide,
   (normalize_lifetime_spec exampleTable).2.2.2 0 (Lifetime.ForAll 5) (by decide)⟩

/-- C3: `normalize_shallow(leaf, b)` returns nothing on non-variable
leaves; on `Var(d)` with `d < b` (a bound variable) it returns nothing; on
`Var(d)` with `d ≥ b` it probes inference variable `d - b` and returns its
bound value up-shifted by `b`, or nothing when that variable is unbound. -/
theorem normalize_shallow_spec (t : InferenceTable) :
    (∀ n args b, (t.normalize_shallow (Ty.Apply n args) b).1 = none) ∧
    (∀ k body b, (t.normalize_shallow (Ty.ForAll k body) b).1 = none) ∧
    (∀ d b, d < b → (t.normalize_shallow (Ty.Var d) b).1 = none) ∧
    (∀ d b, b ≤ d →
      (t.normalize_shallow (Ty.Var d) b).1 =
        Option.map (fun val => Ty.up_shift val b)
          (t.probe_var (TyInferenceVariable.from_depth (d - b))).1) := by
  refine ⟨fun _ _ _ => rfl, fun _ _ _ => rfl, fun d b hlt => ?_, fun d b hge => ?_⟩
  · simp only [InferenceTable.normalize_shallow, Ty.var, Option.bind, if_pos hlt]
  · simp only [InferenceTable.normalize_shallow, InferenceTable.probe_var, Ty.var,
      Option.bind, if_neg (Nat.not_lt.mpr hge), TyInferenceVariable.from_depth]
    cases t.ty_unify.probe_value (d - b) <;> rfl

/-- Witness for C3: in the example table, `Var 1` under one binder resolves
inference variable 0 (bound to `Apply 7 []`) and is up-shifted by 1, while
`Var 0` under one binder is a bound variable and resolves to nothing. -/
theorem normalize_shallow_spec_witness :
    ((1 : Nat) ≤ 1 ∧
      (exampleTable.normalize_shallow (Ty.Var 1) 1).1 =
        Option.map (fun val => Ty.up_shift val 1)
          (exampleTable.probe_var (TyInferenceVariable.from_depth (1 - 1))).1) ∧
    ((0 : Nat) < 1 ∧ (exampleTable.normalize_shallow (Ty.Var 0) 1).1 = none) ∧
    (exampleTable.normalize_shallow (Ty.Var 1) 1).1 = some (Ty.Apply 7 []) := by
  refine ⟨⟨Nat.le_refl 1, (normalize_shallow_spec exampleTable).2.2.2 1 1 (Nat.le_refl 1)⟩,
    ⟨Nat.zero_lt_one, (normalize_shallow_spec exampleTable).2.2.1 0 1 Nat.zero_lt_one⟩, ?_⟩
  rw [(normalize_shallow_spec exampleTable).2.2.2 1 1 (Nat.le_refl 1)]
  show Option.map (fun val => Ty.up_shift val 1) (some (Ty.Apply 7 [])) = some (Ty.Apply 7 [])
  simp [Ty.up_shift, Ty.up_shift_from]

/-- The type-entry loop of `is_trivial_within` returns the table it was
given. -/
theorem check_tys_trivial_snd :
    ∀ (l : List Ty) (t : InferenceTable), (check_tys_trivial t l).2 = t
  | [], _ => rfl
  | ty :: rest, t => by
    simp only [check_tys_trivial]
    cases ty.inference_var with
    | none => exact check_tys_trivial_snd rest t
    | some var =>
      by_cases hp : (t.probe_var var).1.isSome
      · simp only [hp, if_true]
        rfl
      · simp only [hp, if_false]
        exact check_tys_trivial_snd rest t

/-- The lifetime-entry loop of `is_trivial_within` returns the table it was
given. -/
theorem check_lifetimes_trivial_snd :
    ∀ (l : List Lifetime) (t : InferenceTable), (check_lifetimes_trivial t l).2 = t
  | [], _ => rfl
  | lt :: rest, t => by
    simp only [check_lifetimes_trivial]
    cases lt.inference_var with
    | none => exact check_lifetimes_trivial_snd rest t
    | some var =>
      by_cases hp : (t.probe_lifetime_var var).1.isSome
      · simp only [hp, if_true]
        rfl
      · simp only [hp, if_false]
        exact check_lifetimes_trivial_snd rest t

/-- Helper: `is_trivial_within` returns the table it was given. -/
theorem is_trivial_within_snd (s : Substitution) (t : InferenceTable) :
    (s.is_trivial_within t).2 = t := by
  unfold Substitution.is_trivial_within
  have h1 := check_tys_trivial_snd (s.tys.map Prod.snd) t
  cases hc : check_tys_trivial t (s.tys.map Prod.snd) with
  | mk b t1 =>
    rw [hc] at h1
    cases b
    · simpa using h1
    · simp only []
      rw [check_lifetimes_trivial_snd]
      exact h1

/-- C10: the read-only observers are observationally pure: `probe_var`,
`probe_lifetime_var`, `normalize_shallow` and `is_trivial_within` all
return the table unchanged, so the creation lists and every subsequent
probe result are what they were before the call. -/
theorem observers_pure (t : InferenceTable) :
    (∀ v, (t.probe_var v).2 = t) ∧
    (∀ v, (t.probe_lifetime_var v).2 = t) ∧
    (∀ leaf b, (t.normalize_shallow leaf b).2 = t) ∧
    (∀ s : Substitution, (s.is_trivial_within t).2 = t) :=
  ⟨fun _ => rfl, fun _ => rfl, fun _ _ => rfl, fun s => is_trivial_within_snd s t⟩

/-- The type-entry loop succeeds exactly when no type entry is an inference
variable currently bound in the table. -/
theorem check_tys_trivial_fst :
    ∀ (l : List Ty) (t : InferenceTable),
      (check_tys_trivial t l).1 = true ↔
        ∀ ty ∈ l, ∀ v, ty.inference_var = some v → (t.probe_var v).1 = none
  | [], t => by simp [check_tys_trivial]
  | ty :: rest, t => by
    simp only [check_tys_trivial, List.mem_cons]
    cases hv : ty.inference_var with
    | none =>
      rw [check_tys_trivial_fst rest t]
      constructor
      · intro h x hx v hxv
        rcases hx with rfl | hx
        · rw [hv] at hxv; cases hxv
        · exact h x hx v hxv
      · intro h x hx v hxv
        exact h x (Or.inr hx) v hxv
    | some var =>
      by_cases hp : (t.probe_var var).1.isSome
      · simp only [hp, if_true]
        constructor
        · intro h; cases h
        · intro h
          have := h ty (Or.inl rfl) var hv
          rw [this] at hp
          cases hp
      · change (if (t.probe_var var).1.isSome = true then ((false : Bool), t)
          else check_tys_trivial t rest).1 = true ↔ _
        rw [if_neg hp, check_tys_trivial_fst rest t]
        constructor
        · intro h x hx v hxv
          rcases hx with rfl | hx
          · rw [hv] at hxv
            cases hxv
            exact Option.not_isSome_iff_eq_none.mp hp
          · exact h x hx v hxv
        · intro h x hx v hxv
          exact h x (Or.inr hx) v hxv

/-- The lifetime-entry loop succeeds exactly when no lifetime entry is an
inference variable currently bound in the table. -/
theorem check_lifetimes_trivial_fst :
    ∀ (l : List Lifetime) (t : InferenceTable),
      (check_lifetimes_trivial t l).1 = true ↔
        ∀ lt ∈ l, ∀ v, lt.inference_var = some v → (t.probe_lifetime_var v).1 = none
  | [], t => by simp [check_lifetimes_trivial]
  | lt :: rest, t => by
    simp only [check_lifetimes_trivial, List.mem_cons]
    cases hv : lt.inference_var with
    | none =>
      rw [check_lifetimes_trivial_fst rest t]
      constructor
      · intro h x hx v hxv
        rcases hx with rfl | hx
        · rw [hv] at hxv; cases hxv
        · exact h x hx v hxv
      · intro h x hx v hxv
        exact h x (Or.inr hx) v hxv
    | some var =>
      by_cases hp : (t.probe_lifetime_var var).1.isSome
      · simp only [hp, if_true]
        constructor
        · intro h; cases h
        · intro h
          have := h lt (Or.inl rfl) var hv
          rw [this] at hp
          cases hp
      · change (if (t.probe_lifetime_var var).1.isSome = true then ((false : Bool), t)
          else check_lifetimes_trivial t rest).1 = true ↔ _
        rw [if_neg hp, check_lifetimes_trivial_fst rest t]
        constructor
        · intro h x hx v hxv
          rcases hx with rfl | hx
          · rw [hv] at hxv
            cases hxv
            exact Option.not_isSome_iff_eq_none.mp hp
          · exact h x hx v hxv
        · intro h x hx v hxv
          exact h x (Or.inr hx) v hxv

/-- C4: `is_trivial_within` returns true exactly when every type and
lifetime entry of the substitution is either not a variable or an
inference variable that probes to nothing in the table, and false exactly
when some entry is an inference variable bound in the table. -/
theorem is_trivial_within_iff (s : Substitution) (t : InferenceTable) :
    ((s.is_trivial_within t).1 = true ↔
      ((∀ ty ∈ s.tys.map Prod.snd, ∀ v, ty.inference_var = some v →
          (t.probe_var v).1 = none) ∧
       (∀ lt ∈ s.lifetimes.map Prod.snd, ∀ v, lt.inference_var = some v →
          (t.probe_lifetime_var v).1 = none))) ∧
    ((s.is_trivial_within t).1 = false ↔
      ((∃ ty ∈ s.tys.map Prod.snd, ∃ v, ty.inference_var = some v ∧
          (t.probe_var v).1 ≠ none) ∨
       (∃ lt ∈ s.lifetimes.map Prod.snd, ∃ v, lt.inference_var = some v ∧
          (t.probe_lifetime_var v).1 ≠ none))) := by
  have hmain : (s.is_trivial_within t).1 = true ↔
      ((∀ ty ∈ s.tys.map Prod.snd, ∀ v, ty.inference_var = some v →
          (t.probe_var v).1 = none) ∧
       (∀ lt ∈ s.lifetimes.map Prod.snd, ∀ v, lt.inference_var = some v →
          (t.probe_lifetime_var v).1 = none)) := by
    unfold Substitution.is_trivial_within
    have h2 := check_tys_trivial_snd (s.tys.map Prod.snd) t
    have h1 := check_tys_trivial_fst (s.tys.map Prod.snd) t
    cases hc : check_tys_trivial t (s.tys.map Prod.snd) with
    | mk b t1 =>
      rw [hc] at h1 h2
      have h2t : t1 = t := h2
      cases b
      · simp only [Prod.fst] at h1 ⊢
        constructor
        · intro h; cases h
        · intro h
          exact absurd (h1.mpr h.1) (by simp)
      · simp only [Prod.fst] at h1 ⊢
        rw [h2t, check_lifetimes_trivial_fst (s.lifetimes.map Prod.snd) t]
        constructor
        · intro h; exact ⟨h1.mp trivial, h⟩
        · intro h; exact h.2
  constructor
  · exact hmain
  · rw [← Bool.not_eq_true, hmain]
    constructor
    · intro h
      rcases not_and_or.mp h with h | h
      · left
        push_neg at h
        obtain ⟨ty, hty, v, hv, hprobe⟩ := h
        exact ⟨ty, hty, v, hv, hprobe⟩
      · right
        push_neg at h
        obtain ⟨lt, hlt, v, hv, hprobe⟩ := h
        exact ⟨lt, hlt, v, hv, hprobe⟩
    · intro h
      rcases h with ⟨ty, hty, v, hv, hprobe⟩ | ⟨lt, hlt, v, hv, hprobe⟩
      · exact fun hall => hprobe (hall.1 ty hty v hv)
      · exact fun hall => hprobe (hall.2 lt hlt v hv)

/-- Witness for C4: in the example table, the substitution made of a
non-variable type, an unbound type variable and an unbound lifetime
variable is trivial, while the substitution containing the bound type
variable 0 is not. -/
theorem is_trivial_within_iff_witness :
    (exampleTrivialSubst.is_trivial_within exampleTable).1 = true ∧
    (exampleBoundSubst.is_trivial_within exampleTable).1 = false := by
  constructor
  · apply (is_trivial_within_iff exampleTrivialSubst exampleTable).1.mpr
    constructor
    · intro ty hty v hv
      simp only [exampleTrivialSubst, List.map_cons, List.map_nil, List.mem_cons,
        List.mem_singleton] at hty
      rcases hty with rfl | rfl | h
      · cases hv
      · cases hv; rfl
      · cases h
    · intro lt hlt v hv
      simp only [exampleTrivialSubst, List.map_cons, List.map_nil,
        List.mem_singleton] at hlt
      subst hlt
      cases hv
      rfl
  · apply (is_trivial_within_iff exampleBoundSubst exampleTable).2.mpr
    left
    refine ⟨Ty.Var 0, by simp [exampleBoundSubst], TyInferenceVariable.from_depth 0, rfl, ?_⟩
    intro h
    cases h

/-- Helper: probing the key just appended to a store yields the appended
value. -/
theorem probe_value_append {T : Type} (t : ena.UnificationTable T) (v : InferenceValue T) :
    (ena.UnificationTable.mk (t.values ++ [v])).probe_value t.values.length = v := by
  simp [ena.UnificationTable.probe_value, List.getD_eq_getElem?_getD,
    List.getElem?_concat_length]

/-- Helper: the key with the store's current size is not among the keys of
a well-formed creation list. -/
theorem mk_length_not_mem_range_map (n : Nat) :
    (⟨n⟩ : TyInferenceVariable) ∉ (List.range n).map TyInferenceVariable.mk := by
  intro h
  obtain ⟨a, ha, hae⟩ := List.mem_map.mp h
  have han : a = n := congrArg TyInferenceVariable.index hae
  subst han
  exact absurd (List.mem_range.mp ha) (Nat.lt_irrefl a)

/-- Helper: the lifetime counterpart of `mk_length_not_mem_range_map`. -/
theorem lifetime_mk_length_not_mem_range_map (n : Nat) :
    (⟨n⟩ : LifetimeInferenceVariable) ∉ (List.range n).map LifetimeInferenceVariable.mk := by
  intro h
  obtain ⟨a, ha, hae⟩ := List.mem_map.mp h
  have han : a = n := congrArg LifetimeInferenceVariable.index hae
  subst han
  exact absurd (List.mem_range.mp ha) (Nat.lt_irrefl a)

/-- C6 counterexample: the key returned by `new_variable` is not always
distinct from every key previously returned. Create a variable, snapshot,
create a second variable (key 1), roll back, create again: the call
returns key 1 a second time. -/
theorem new_variable_fresh_counterexample :
    cexPair4.1 = cexPair2.1 ∧ cexPair2.1 = TyInferenceVariable.mk 1 :=
  ⟨by decide, by decide⟩

/-- C6 (amended): `new_variable(u)` (resp. `new_lifetime_variable(u)`)
always succeeds (it is total), returns a key distinct from every key in
the current creation list — every previously returned key still live —
appends that key to the end of the list, and leaves it `Unbound(u)`, so
immediately probing it returns nothing. (Distinctness from keys discarded
by a rollback fails, per `new_variable_fresh_counterexample`.) -/
theorem new_variable_spec (t : InferenceTable) (u : UniverseIndex) (h : t.wf) :
    ((t.new_variable u).1 ∉ t.ty_vars ∧
     (t.new_variable u).2.ty_vars = t.ty_vars ++ [(t.new_variable u).1] ∧
     (t.new_variable u).2.ty_unify.probe_value (t.new_variable u).1.index =
       InferenceValue.Unbound u ∧
     ((t.new_variable u).2.probe_var (t.new_variable u).1).1 = none) ∧
    ((t.new_lifetime_variable u).1 ∉ t.lifetime_vars ∧
     (t.new_lifetime_variable u).2.lifetime_vars =
       t.lifetime_vars ++ [(t.new_lifetime_variable u).1] ∧
     (t.new_lifetime_variable u).2.lifetime_unify.probe_value
       (t.new_lifetime_variable u).1.index = InferenceValue.Unbound u ∧
     ((t.new_lifetime_variable u).2.probe_lifetime_var
       (t.new_lifetime_variable u).1).1 = none) := by
  obtain ⟨h1, h2⟩ := h
  have hty : (t.new_variable u).2.ty_unify.probe_value (t.new_variable u).1.index =
      InferenceValue.Unbound u :=
    probe_value_append t.ty_unify (InferenceValue.Unbound u)
  have hlt : (t.new_lifetime_variable u).2.lifetime_unify.probe_value
      (t.new_lifetime_variable u).1.index = InferenceValue.Unbound u :=
    probe_value_append t.lifetime_unify (InferenceValue.Unbound u)
  refine ⟨⟨?_, rfl, hty, ?_⟩, ⟨?_, rfl, hlt, ?_⟩⟩
  · rw [h1]
    exact mk_length_not_mem_range_map t.ty_unify.values.length
  · simp [InferenceTable.probe_var, hty]
  · rw [h2]
    exact lifetime_mk_length_not_mem_range_map t.lifetime_unify.values.length
  · simp [InferenceTable.probe_lifetime_var, hlt]

/-- Witness for C6: the amended claim instantiated at the example table in
universe 3. -/
theorem new_variable_spec_witness :
    exampleTable.wf ∧
    (((exampleTable.new_variable 3).1 ∉ exampleTable.ty_vars ∧
      (exampleTable.new_variable 3).2.ty_vars =
        exampleTable.ty_vars ++ [(exampleTable.new_variable 3).1] ∧
      (exampleTable.new_variable 3).2.ty_unify.probe_value
        (exampleTable.new_variable 3).1.index = InferenceValue.Unbound 3 ∧
      ((exampleTable.new_variable 3).2.probe_var (exampleTable.new_variable 3).1).1 =
        none) ∧
     ((exampleTable.new_lifetime_variable 3).1 ∉ exampleTable.lifetime_vars ∧
      (exampleTable.new_lifetime_variable 3).2.lifetime_vars =
        exampleTable.lifetime_vars ++ [(exampleTable.new_lifetime_variable 3).1] ∧
      (exampleTable.new_lifetime_variable 3).2.lifetime_unify.probe_value
        (exampleTable.new_lifetime_variable 3).1.index = InferenceValue.Unbound 3 ∧
      ((exampleTable.new_lifetime_variable 3).2.probe_lifetime_var
        (exampleTable.new_lifetime_variable 3).1).1 = none)) :=
  ⟨⟨rfl, rfl⟩, new_variable_spec exampleTable 3 ⟨rfl, rfl⟩⟩

/-- Helper: the fresh table is well formed. -/
theorem wf_new : InferenceTable.new.wf :=
  ⟨rfl, rfl⟩

/-- Helper: creating a type variable preserves well-formedness. -/
theorem wf_new_variable (t : InferenceTable) (u : UniverseIndex) (h : t.wf) :
    (t.new_variable u).2.wf := by
  obtain ⟨h1, h2⟩ := h
  refine ⟨?_, h2⟩
  have key : (t.new_variable u).2.ty_vars =
      t.ty_vars ++ [(⟨t.ty_unify.values.length⟩ : TyInferenceVariable)] := rfl
  have key2 : (t.new_variable u).2.ty_unify.values =
      t.ty_unify.values ++ [InferenceValue.Unbound u] := rfl
  rw [key, key2, List.length_append, List.length_singleton, List.range_succ,
    List.map_append, ← h1]
  rfl

/-- Helper: creating a lifetime variable preserves well-formedness. -/
theorem wf_new_lifetime_variable (t : InferenceTable) (u : UniverseIndex) (h : t.wf) :
    (t.new_lifetime_variable u).2.wf := by
  obtain ⟨h1, h2⟩ := h
  refine ⟨h1, ?_⟩
  have key : (t.new_lifetime_variable u).2.lifetime_vars =
      t.lifetime_vars ++ [(⟨t.lifetime_unify.values.length⟩ : LifetimeInferenceVariable)] := rfl
  have key2 : (t.new_lifetime_variable u).2.lifetime_unify.values =
      t.lifetime_unify.values ++ [InferenceValue.Unbound u] := rfl
  rw [key, key2, List.length_append, List.length_singleton, List.range_succ,
    List.map_append, ← h2]
  rfl

/-- Helper: overwriting a type key's value preserves well-formedness. -/
theorem wf_set_ty_value (t : InferenceTable) (k : Nat) (v : InferenceValue Ty)
    (h : t.wf) : (t.set_ty_value k v).wf := by
  obtain ⟨h1, h2⟩ := h
  refine ⟨?_, h2⟩
  show t.ty_vars = (List.range (t.ty_unify.values.set k v).length).map TyInferenceVariable.mk
  rw [List.length_set]
  exact h1

/-- Helper: overwriting a lifetime key's value preserves well-formedness. -/
theorem wf_set_lifetime_value (t : InferenceTable) (k : Nat)
    (v : InferenceValue Lifetime) (h : t.wf) : (t.set_lifetime_value k v).wf := by
  obtain ⟨h1, h2⟩ := h
  refine ⟨h1, ?_⟩
  show t.lifetime_vars =
    (List.range (t.lifetime_unify.values.set k v).length).map LifetimeInferenceVariable.mk
  rw [List.length_set]
  exact h2

/-- Helper: every single table mutation preserves well-formedness. -/
theorem wf_applyOp (t : InferenceTable) (o : TableOp) (h : t.wf) :
    (applyOp t o).wf := by
  cases o with
  | new_ty u => exact wf_new_variable t u h
  | new_lifetime u => exact wf_new_lifetime_variable t u h
  | bind_ty v ty => exact wf_set_ty_value t v.index (InferenceValue.Bound ty) h
  | bind_lifetime v lt => exact wf_set_lifetime_value t v.index (InferenceValue.Bound lt) h

/-- Helper: sequences of table mutations preserve well-formedness. -/
theorem wf_applyOps :
    ∀ (ops : List TableOp) (t : InferenceTable), t.wf → (applyOps t ops).wf
  | [], _, h => h
  | o :: rest, t, h => wf_applyOps rest (applyOp t o) (wf_applyOp t o h)

/-- C7: in every table reachable from `new` by variable creation, the
unify module's bindings and class updates, snapshot rollback, commit and
`commit_if_ok`, each creation list holds exactly the keys of its store —
every live key exactly once, in creation order — and its length equals the
store's key count. -/
theorem reachable_wf (t : InferenceTable) (h : Reachable t) :
    t.wf ∧
    t.ty_vars.length = t.ty_unify.values.length ∧
    t.lifetime_vars.length = t.lifetime_unify.values.length ∧
    t.ty_vars.Nodup ∧
    t.lifetime_vars.Nodup ∧
    (∀ v : TyInferenceVariable, v ∈ t.ty_vars ↔ v.index < t.ty_unify.values.length) ∧
    (∀ v : LifetimeInferenceVariable,
      v ∈ t.lifetime_vars ↔ v.index < t.lifetime_unify.values.length) := by
  have hinj : Function.Injective TyInferenceVariable.mk :=
    fun a b hab => congrArg TyInferenceVariable.index hab
  have hinjl : Function.Injective LifetimeInferenceVariable.mk :=
    fun a b hab => congrArg LifetimeInferenceVariable.index hab
  have hwf : t.wf := by
    induction h with
    | new_table => exact wf_new
    | step t1 o _ ih => exact wf_applyOp t1 o ih
    | set_ty t1 k v _ ih => exact wf_set_ty_value t1 k v ih
    | set_lifetime t1 k v _ ih => exact wf_set_lifetime_value t1 k v ih
    | rollback t1 t2 _ _ ih1 _ =>
      rw [rollback_to_snapshot_eq]
      exact ih1
    | commit_step t1 s _ ih =>
      rw [commit_eq]
      exact ih
    | @commit_if_ok_step E R t1 ops res _ ih =>
      cases res with
      | ok v =>
        have he : (t1.commit_if_ok fun s => ((Except.ok v : Except E R), applyOps s ops)).2 =
            applyOps t1 ops := rfl
        rw [he]
        exact wf_applyOps ops t1 ih
      | error e =>
        have he : (t1.commit_if_ok fun s =>
            ((Except.error e : Except E R), applyOps s ops)).2 = t1 := rfl
        rw [he]
        exact ih
  obtain ⟨h1, h2⟩ := hwf
  refine ⟨⟨h1, h2⟩, ?_, ?_, ?_, ?_, ?_, ?_⟩
  · rw [h1, List.length_map, List.length_range]
  · rw [h2, List.length_map, List.length_range]
  · rw [h1]
    exact (List.nodup_range _).map hinj
  · rw [h2]
    exact (List.nodup_range _).map hinjl
  · intro v
    rw [h1]
    simp only [List.mem_map, List.mem_range]
    constructor
    · rintro ⟨a, ha, rfl⟩
      exact ha
    · intro hv
      exact ⟨v.index, hv, rfl⟩
  · intro v
    rw [h2]
    simp only [List.mem_map, List.mem_range]
    constructor
    · rintro ⟨a, ha, rfl⟩
      exact ha
    · intro hv
      exact ⟨v.index, hv, rfl⟩

/-- Witness for C7: the example table is reachable (built by four
creations and two bindings) and satisfies the invariant. -/
theorem reachable_wf_witness :
    Reachable exampleTable ∧
    (exampleTable.wf ∧
     exampleTable.ty_vars.length = exampleTable.ty_unify.values.length ∧
     exampleTable.lifetime_vars.length = exampleTable.lifetime_unify.values.length ∧
     exampleTable.ty_vars.Nodup ∧
     exampleTable.lifetime_vars.Nodup ∧
     (∀ v : TyInferenceVariable,
       v ∈ exampleTable.ty_vars ↔ v.index < exampleTable.ty_unify.values.length) ∧
     (∀ v : LifetimeInferenceVariable,
       v ∈ exampleTable.lifetime_vars ↔
         v.index < exampleTable.lifetime_unify.values.length)) := by
  have hre : Reachable exampleTable := by
    have h0 : Reachable InferenceTable.new := Reachable.new_table
    have h1 : Reachable (InferenceTable.new.new_variable 0).2 :=
      Reachable.step _ (TableOp.new_ty 0) h0
    have h2 : Reachable ((InferenceTable.new.new_variable 0).2.new_variable 1).2 :=
      Reachable.step _ (TableOp.new_ty 1) h1
    have h3 : Reachable
        (((InferenceTable.new.new_variable 0).2.new_variable 1).2.new_lifetime_variable 0).2 :=
      Reachable.step _ (TableOp.new_lifetime 0) h2
    have h4 : Reachable
        ((((InferenceTable.new.new_variable 0).2.new_variable 1).2.new_lifetime_variable
          0).2.new_lifetime_variable 1).2 :=
      Reachable.step _ (TableOp.new_lifetime 1) h3
    have h5 : Reachable
        (((((InferenceTable.new.new_variable 0).2.new_variable 1).2.new_lifetime_variable
          0).2.new_lifetime_variable 1).2.set_ty_value 0
            (InferenceValue.Bound (Ty.Apply 7 []))) :=
      Reachable.set_ty _ 0 _ h4
    exact Reachable.set_lifetime _ 0 _ h5
  exact ⟨hre, reachable_wf exampleTable hre⟩

end Chalk
